import Mathlib

/-!
Verification of the string interner in src/src/unique_strings.c.

The C code is shallowly embedded: byte strings are lists of naturals
(each below 256 on real inputs), 32-bit arithmetic is modelled with
explicit reduction modulo 2^32, the growable arena is a record holding
the written bytes together with the used and capacity counters, and the
bucket table is an optional list of chains (it is the null pointer, i.e.
none, after freeze).  Fallible operations return Option: in particular
unique_strings_add returns none exactly when the C code would
dereference the null bucket table of a frozen interner.  Calls to free
are modelled by an explicit log of release events so that teardown can
be audited (each node released once, the table released once, and so
on).
-/

namespace UapC

def UNIQUE_STRING_BUCKETS : Nat := 32

def MURMUR_SEED : Nat := 0xf9a025a4

/-- Reduction modulo 2^32, the behaviour of C uint32_t arithmetic. -/
def u32 (n : Nat) : Nat := n % 4294967296

/-- The murmur2 multiplication constant m = 0x5bd1e995. -/
def murmurM : Nat := 0x5bd1e995

/-- Value contributed by a trailing byte in the switch of hash_murmur2.
The C code reads the byte through a (signed) char, promotes it to int,
shifts it left and xors it into the 32-bit state, so bytes at or above
128 are sign extended.  The result is already reduced modulo 2^32. -/
def sextShift (b shift : Nat) : Nat :=
  if b < 128 then b <<< shift
  else (b <<< shift) % 4294967296 + (4294967296 - (256 <<< shift) % 4294967296)

/-- The while loop plus the trailing-byte switch of hash_murmur2,
processing 4-byte little-endian words and then the 0 to 3 leftover
bytes (including the final multiplication by m from the switch
fallthrough into default). -/
def murmurBody : Nat → List Nat → Nat
  | h, b0 :: b1 :: b2 :: b3 :: rest =>
      let k := b0 + 256 * b1 + 65536 * b2 + 16777216 * b3
      let k := u32 (k * murmurM)
      let k := k ^^^ (k >>> 24)
      let k := u32 (k * murmurM)
      let h := u32 (h * murmurM)
      let h := h ^^^ k
      murmurBody h rest
  | h, rest =>
      let h :=
        match rest with
        | [b0, b1, b2] => ((h ^^^ sextShift b2 16) ^^^ sextShift b1 8) ^^^ sextShift b0 0
        | [b0, b1] => (h ^^^ sextShift b1 8) ^^^ sextShift b0 0
        | [b0] => h ^^^ sextShift b0 0
        | _ => h
      u32 (h * murmurM)

/-- hash_murmur2 from the source: seeded 32-bit murmur2 over the bytes
of the input, with the length mixed into the initial state and the
final avalanche (h ^= h >> 13; h *= m; h ^= h >> 15). -/
def hash_murmur2 (data : List Nat) (seed : Nat) : Nat :=
  let h := u32 (seed ^^^ u32 data.length)
  let h := murmurBody h data
  let h := h ^^^ (h >>> 13)
  let h := u32 (h * murmurM)
  h ^^^ (h >>> 15)

/-- _string_hash_pair_prepare from the source: the digest of a string
is hash_murmur2 over its bytes with the fixed seed, the length being
the byte count (strlen of a NUL-free byte string). -/
def _string_hash_pair_prepare (s : List Nat) : Nat :=
  hash_murmur2 s MURMUR_SEED

/-- struct buffer_t: the growable arena.  data holds the written
bytes; in every state the C code can reach, data has length used. -/
structure Buffer where
  used : Nat
  capacity : Nat
  data : List Nat
deriving DecidableEq, Repr

/-- buffer_alloc from the source: grows capacity by 1024 * (size/1024
+ 1) when used + size >= capacity (realloc keeps the written bytes),
then hands out the offset equal to the old used counter and advances
used by size. -/
def buffer_alloc (buffer : Buffer) (size : Nat) : Buffer × Nat :=
  let buffer :=
    if buffer.capacity ≤ buffer.used + size then
      { buffer with capacity := buffer.capacity + 1024 * (size / 1024 + 1) }
    else buffer
  ({ buffer with used := buffer.used + size }, buffer.used)

/-- buffer_compact from the source: realloc down to exactly used
bytes; capacity becomes used and bytes beyond used are discarded. -/
def buffer_compact (buffer : Buffer) : Buffer :=
  { buffer with data := buffer.data.take buffer.used, capacity := buffer.used }

/-- Reading a NUL-terminated C string: the bytes before the first 0. -/
def cstr : List Nat → List Nat
  | [] => []
  | b :: rest => if b = 0 then [] else b :: cstr rest

/-- unique_strings_get from the source: handle->parent->data +
handle->addr, read as a NUL-terminated string. -/
def unique_strings_get (buffer : Buffer) (addr : Nat) : List Nat :=
  cstr (buffer.data.drop addr)

/-- struct unique_string_node: the stored digest and the handle offset
into the arena (the chain link is the list structure). -/
structure Node where
  hash : Nat
  addr : Nat
deriving DecidableEq, Repr

/-- struct unique_strings_t: the arena plus the bucket table; the
table is none when the buckets pointer is null (after freeze). -/
structure Interner where
  buffer : Buffer
  buckets : Option (List (List Node))
deriving DecidableEq, Repr

/-- unique_strings_create from the source: calloc gives a zeroed
arena and a table of 32 empty chains. -/
def unique_strings_create : Interner :=
  { buffer := { used := 0, capacity := 0, data := [] },
    buckets := some (List.replicate UNIQUE_STRING_BUCKETS []) }

/-- _get_bucket_index from the source: digest mod 32. -/
def _get_bucket_index (hash : Nat) : Nat :=
  hash % UNIQUE_STRING_BUCKETS

/-- _unique_strings_find_node from the source, on one chain.  The
result is none when the bucket is empty (found stays null), some
(true, i) when the entry at position i matches both digest and bytes,
and some (false, i) when no entry matched, with i the position of the
last visited entry (the walk stops early at the first entry whose
digest is strictly below the query digest, otherwise it runs off the
end of the chain). -/
def _unique_strings_find_node (buffer : Buffer) (pairHash : Nat) (s : List Nat) :
    List Node → Option (Bool × Nat)
  | [] => none
  | iter :: rest =>
      if iter.hash = pairHash ∧ unique_strings_get buffer iter.addr = s then
        some (true, 0)
      else if iter.hash < pairHash then
        some (false, 0)
      else
        match _unique_strings_find_node buffer pairHash s rest with
        | some (b, j) => some (b, j + 1)
        | none => some (false, 0)

/-- memcpy of src to offset addr of the arena.  When addr equals the
length of the written prefix (as in every reachable call) this is
plain appending; the general splice keeps the definition total. -/
def writeBytes (data : List Nat) (addr : Nat) (src : List Nat) : List Nat :=
  data.take addr ++ List.replicate (addr - data.length) 0 ++ src ++
    data.drop (addr + src.length)

/-- unique_string_node_create from the source: allocate strlen+1
bytes, copy the string and its terminator, and record the digest and
the handle in the fresh node. -/
def unique_string_node_create (pairHash : Nat) (s : List Nat) (buffer : Buffer) :
    Buffer × Node :=
  let r := buffer_alloc buffer (s.length + 1)
  ({ r.1 with data := writeBytes r.1.data r.2 (s ++ [0]) },
   { hash := pairHash, addr := r.2 })

/-- Splice a node right after position i of a chain (found->next =
new_node after new_node->next = found->next). -/
def insertAfter (chain : List Node) (i : Nat) (n : Node) : List Node :=
  chain.take (i + 1) ++ [n] ++ chain.drop (i + 1)

/-- unique_strings_add from the source.  On a frozen interner the
buckets pointer is null and the C code dereferences it, so the model
returns none.  Otherwise: probe the chain of the digest bucket; on a
hit return the stored handle unchanged; on a miss create a node (arena
allocation plus copy) and splice it after the last visited entry, or
make it the bucket head when the bucket was empty. -/
def unique_strings_add (us : Interner) (s : List Nat) : Option (Nat × Interner) :=
  let pairHash := _string_hash_pair_prepare s
  match us.buckets with
  | none => none
  | some table =>
      let bid := _get_bucket_index pairHash
      let chain := table.getD bid []
      match _unique_strings_find_node us.buffer pairHash s chain with
      | some (true, i) =>
          some ((chain.getD i { hash := 0, addr := 0 }).addr, us)
      | some (false, i) =>
          let r := unique_string_node_create pairHash s us.buffer
          some (r.2.addr,
            { buffer := r.1, buckets := some (table.set bid (insertAfter chain i r.2)) })
      | none =>
          let r := unique_string_node_create pairHash s us.buffer
          some (r.2.addr, { buffer := r.1, buckets := some (table.set bid [r.2]) })

/-- A release event: freeing one node, the bucket table, the arena
storage, or the interner object itself. -/
inductive FreeEvt where
  | node (addr : Nat)
  | table
  | buf
  | obj
deriving DecidableEq, Repr

/-- _unique_string_free_nodes from the source: the recursion frees the
tail of the chain first, then the node itself. -/
def _unique_string_free_nodes : List Node → List FreeEvt
  | [] => []
  | n :: rest => _unique_string_free_nodes rest ++ [FreeEvt.node n.addr]

/-- Release log of _unique_string_free_buckets: nothing when the
buckets pointer is already null; otherwise every chain is freed in
bucket order and then the table itself. -/
def _unique_string_free_buckets_log (us : Interner) : List FreeEvt :=
  match us.buckets with
  | none => []
  | some table => (table.map _unique_string_free_nodes).flatten ++ [FreeEvt.table]

/-- State effect of _unique_string_free_buckets: the buckets pointer
is set to null. -/
def _unique_string_free_buckets (us : Interner) : Interner :=
  { us with buckets := none }

/-- unique_strings_freeze from the source: free the bucket structures
and compact the arena. -/
def unique_strings_freeze (us : Interner) : Interner :=
  let us := _unique_string_free_buckets us
  { us with buffer := buffer_compact us.buffer }

/-- unique_strings_destroy from the source: a null interner is left
alone; otherwise the bucket structures are freed (only if still
present), then the arena storage, then the object. -/
def unique_strings_destroy : Option Interner → List FreeEvt
  | none => []
  | some us => _unique_string_free_buckets_log us ++ [FreeEvt.buf, FreeEvt.obj]

/-- unique_strings_owns from the source: str >= data and str < data +
used, on a flat address model where base is the address of the arena
storage of this interner. -/
def unique_strings_owns (us : Interner) (base p : Nat) : Bool :=
  decide (base ≤ p) && decide (p < base + us.buffer.used)

/-- An operation of the public mutating interface (destroy excluded:
it ends the lifetime). -/
inductive Op where
  | add (s : List Nat)
  | freeze
deriving DecidableEq, Repr

def runOp (us : Interner) : Op → Option Interner
  | Op.add s => (unique_strings_add us s).map Prod.snd
  | Op.freeze => some (unique_strings_freeze us)

def runOps : Interner → List Op → Option Interner
  | us, [] => some us
  | us, op :: ops => (runOp us op).bind (fun us' => runOps us' ops)

/-- Arena wellformedness: the written bytes are exactly the used
prefix.  This holds in every state the C code can reach. -/
def WF (us : Interner) : Prop :=
  us.buffer.data.length = us.buffer.used

/-- A committed handle: some byte at or after addr and strictly inside
the used region is a NUL terminator, so reading the handle never
leaves the written region. -/
def HandleLive (b : Buffer) (addr : Nat) : Prop :=
  ∃ j, addr + j < b.used ∧ b.data.getD (addr + j) 1 = 0

/-- Every node of the index holds a live handle. -/
def NodesLive (us : Interner) : Prop :=
  ∀ table, us.buckets = some table → ∀ chain ∈ table, ∀ n ∈ chain,
    HandleLive us.buffer n.addr

/-- Every node of the index stores the digest of its own content. -/
def HashInv (us : Interner) : Prop :=
  ∀ table, us.buckets = some table → ∀ chain ∈ table, ∀ n ∈ chain,
    n.hash = _string_hash_pair_prepare (unique_strings_get us.buffer n.addr)

/-- The reachable-state invariant used throughout. -/
def Inv (us : Interner) : Prop :=
  WF us ∧ NodesLive us ∧ HashInv us

/-- Strings passed to add are C strings: they contain no NUL byte. -/
def ValidOps (ops : List Op) : Prop :=
  ∀ s, Op.add s ∈ ops → 0 ∉ s

/-- Result type of the probe described in the spec. -/
inductive ProbeResult where
  | Found (e : Node)
  | NotFound (last : Option Node)
deriving DecidableEq, Repr

/-- Modelled from the spec, section 4.3: walk the chain of the bucket
from its head; on an entry whose digest and bytes both match, return
Found of that entry; on an entry whose digest is strictly smaller than
the query digest, stop and report NotFound; if the chain is exhausted
or short-circuited without a match, report NotFound carrying the last
visited entry, or none if the bucket was empty. -/
def probeSpec (view : Node → List Nat) (digest : Nat) (bytes : List Nat) :
    List Node → ProbeResult
  | [] => ProbeResult.NotFound none
  | e :: rest =>
      if e.hash = digest ∧ view e = bytes then ProbeResult.Found e
      else if e.hash < digest then ProbeResult.NotFound (some e)
      else
        match probeSpec view digest bytes rest with
        | ProbeResult.NotFound none => ProbeResult.NotFound (some e)
        | r => r

/-- Read the code-level find result as a spec-level probe result, with
positions resolved against the chain that was searched. -/
def findResultToProbe (chain : List Node) : Option (Bool × Nat) → ProbeResult
  | none => ProbeResult.NotFound none
  | some (true, i) => ProbeResult.Found (chain.getD i { hash := 0, addr := 0 })
  | some (false, i) =>
      ProbeResult.NotFound (some (chain.getD i { hash := 0, addr := 0 }))

/-- Recognizer for node release events. -/
def FreeEvt.isNode : FreeEvt → Bool
  | FreeEvt.node _ => true
  | _ => false

/-- Recognizer for the bucket-table release event. -/
def FreeEvt.isTable : FreeEvt → Bool
  | FreeEvt.table => true
  | _ => false

/-- Recognizer for the arena-storage release event. -/
def FreeEvt.isBuf : FreeEvt → Bool
  | FreeEvt.buf => true
  | _ => false

/-- Recognizer for the interner-object release event. -/
def FreeEvt.isObj : FreeEvt → Bool
  | FreeEvt.obj => true
  | _ => false

/-- Total number of entries of a bucket table. -/
def totalNodes (table : List (List Node)) : Nat :=
  (table.map List.length).sum

/-! ## Lemmas about the arena -/

theorem buffer_alloc_snd (b : Buffer) (size : Nat) :
    (buffer_alloc b size).2 = b.used := by
  simp only [buffer_alloc]
  split <;> rfl

theorem buffer_alloc_used (b : Buffer) (size : Nat) :
    (buffer_alloc b size).1.used = b.used + size := by
  simp only [buffer_alloc]
  split <;> rfl

theorem buffer_alloc_data (b : Buffer) (size : Nat) :
    (buffer_alloc b size).1.data = b.data := by
  simp only [buffer_alloc]
  split <;> rfl

theorem buffer_alloc_capacity (b : Buffer) (size : Nat) :
    (buffer_alloc b size).1.capacity =
      if b.capacity ≤ b.used + size then b.capacity + 1024 * (size / 1024 + 1)
      else b.capacity := by
  simp only [buffer_alloc]
  split <;> simp_all

theorem node_create_snd (ph : Nat) (s : List Nat) (b : Buffer) :
    (unique_string_node_create ph s b).2 = { hash := ph, addr := b.used } := by
  simp [unique_string_node_create, buffer_alloc_snd]

theorem node_create_used (ph : Nat) (s : List Nat) (b : Buffer) :
    (unique_string_node_create ph s b).1.used = b.used + (s.length + 1) := by
  simp [unique_string_node_create, buffer_alloc_used]

theorem node_create_data (ph : Nat) (s : List Nat) (b : Buffer)
    (hwf : b.data.length = b.used) :
    (unique_string_node_create ph s b).1.data = b.data ++ s ++ [0] := by
  simp only [unique_string_node_create, buffer_alloc_data, buffer_alloc_snd, writeBytes]
  rw [← hwf]
  simp [List.take_length, List.drop_eq_nil_of_le, List.append_assoc]

/-! ## Lemmas about NUL-terminated reads -/

theorem cstr_append_of_mem_zero {l : List Nat} (e : List Nat) (h : 0 ∈ l) :
    cstr (l ++ e) = cstr l := by
  induction l with
  | nil => simp at h
  | cons b rest ih =>
      simp only [List.cons_append, cstr]
      by_cases hb : b = 0
      · simp [hb]
      · rw [if_neg hb, if_neg hb]
        rcases List.mem_cons.mp h with h0 | h0
        · exact absurd h0.symm hb
        · exact congrArg (fun l => b :: l) (ih h0)

theorem cstr_append_nul {s : List Nat} (t : List Nat) (h : 0 ∉ s) :
    cstr (s ++ 0 :: t) = s := by
  induction s with
  | nil => simp [cstr]
  | cons b rest ih =>
      simp only [List.cons_append, cstr]
      have hb : ¬ b = 0 := fun hb => h (by simp [hb])
      rw [if_neg hb]
      exact congrArg (fun l => b :: l) (ih (fun hm => h (List.mem_cons_of_mem _ hm)))

theorem zero_mem_drop {data : List Nat} {addr j : Nat} (hj : addr + j < data.length)
    (h0 : data.getD (addr + j) 1 = 0) : 0 ∈ data.drop addr := by
  have hlt : j < (data.drop addr).length := by
    simp only [List.length_drop]
    omega
  refine List.mem_iff_getElem.mpr ⟨j, hlt, ?_⟩
  have hget : (data.drop addr).getD j 1 = data.getD (addr + j) 1 := by
    rw [List.getD_eq_getElem _ 1 hlt, List.getD_eq_getElem _ 1 hj]
    exact List.getElem_drop data
  rw [List.getD_eq_getElem _ 1 hlt, h0] at hget
  exact hget

/-! ## The corrected arena growth law (claim C2) -/

/-- C2 counterexample.  At used = 1024, capacity = 2048 and request
size 1024 the request does not exceed capacity (1024 + 1024 > 2048 is
false), yet buffer_alloc grows the arena; and the capacity it produces
is 4096, not the 2048 + 1024 * 1 = 3072 that the growth formula of the
claim would give.  So growth is not triggered exactly when used + size
exceeds capacity, and the increment is not 1024 times the ceiling of
size / 1024. -/
theorem buffer_alloc_claim_false :
    (buffer_alloc { used := 1024, capacity := 2048, data := [] } 1024).1.capacity = 4096
    ∧ ¬ (1024 + 1024 > 2048)
    ∧ (buffer_alloc { used := 1024, capacity := 2048, data := [] } 1024).1.capacity ≠ 2048
    ∧ (buffer_alloc { used := 1024, capacity := 2048, data := [] } 1024).1.capacity ≠ 3072 := by
  refine ⟨rfl, by decide, by decide, by decide⟩

/-- C2 amended.  buffer_alloc grows the backing storage exactly when
used + size is at least the current capacity, and when it grows, the
new capacity equals the old capacity plus 1024 * (size / 1024 + 1),
the division rounding down; the stored bytes, the handed-out offset
(the old used counter) and the new used counter are as the claim
says. -/
theorem buffer_alloc_spec (b : Buffer) (size : Nat) :
    (b.capacity ≤ b.used + size →
        (buffer_alloc b size).1.capacity = b.capacity + 1024 * (size / 1024 + 1))
    ∧ (b.used + size < b.capacity → (buffer_alloc b size).1.capacity = b.capacity)
    ∧ (buffer_alloc b size).1.data = b.data
    ∧ (buffer_alloc b size).2 = b.used
    ∧ (buffer_alloc b size).1.used = b.used + size := by
  refine ⟨?_, ?_, buffer_alloc_data b size, buffer_alloc_snd b size, buffer_alloc_used b size⟩
  · intro h
    rw [buffer_alloc_capacity, if_pos h]
  · intro h
    rw [buffer_alloc_capacity, if_neg (by omega)]

/-- Witness for the amended C2 law at concrete inputs: a growing call
(used 0, capacity 0, size 1) and a non-growing call (used 2, capacity
1024, size 2). -/
theorem buffer_alloc_spec_witness :
    (buffer_alloc { used := 0, capacity := 0, data := [] } 1).1.capacity = 0 + 1024 * (1 / 1024 + 1)
    ∧ (buffer_alloc { used := 2, capacity := 1024, data := [] } 2).1.capacity = 1024 := by
  constructor
  · exact (buffer_alloc_spec { used := 0, capacity := 0, data := [] } 1).1 (by decide)
  · exact (buffer_alloc_spec { used := 2, capacity := 1024, data := [] } 2).2.1 (by decide)

/-! ## Preservation of reads and of liveness under arena growth -/

theorem get_data_append {b b' : Buffer} (e : List Nat)
    (hdata : b'.data = b.data ++ e) (hwf : b.data.length = b.used) {addr : Nat}
    (hl : HandleLive b addr) :
    unique_strings_get b' addr = unique_strings_get b addr := by
  obtain ⟨j, hj, h0⟩ := hl
  have haddr : addr ≤ b.data.length := by omega
  simp only [unique_strings_get, hdata]
  rw [List.drop_append_eq_append_drop, Nat.sub_eq_zero_of_le haddr, List.drop_zero]
  exact cstr_append_of_mem_zero e (zero_mem_drop (by omega) h0)

theorem live_data_append {b b' : Buffer} (e : List Nat)
    (hdata : b'.data = b.data ++ e) (hused : b.used ≤ b'.used)
    (hwf : b.data.length = b.used) {addr : Nat} (hl : HandleLive b addr) :
    HandleLive b' addr := by
  obtain ⟨j, hj, h0⟩ := hl
  refine ⟨j, by omega, ?_⟩
  rw [hdata, List.getD_append b.data e 1 (addr + j) (by omega)]
  exact h0

/-! ## Lemmas about the probe -/

theorem find_node_found {buffer : Buffer} {ph : Nat} {s : List Nat} :
    ∀ {chain : List Node} {i : Nat},
      _unique_strings_find_node buffer ph s chain = some (true, i) →
      i < chain.length
      ∧ (chain.getD i { hash := 0, addr := 0 }).hash = ph
      ∧ unique_strings_get buffer (chain.getD i { hash := 0, addr := 0 }).addr = s := by
  intro chain
  induction chain with
  | nil => intro i h; simp [_unique_strings_find_node] at h
  | cons iter rest ih =>
      intro i h
      simp only [_unique_strings_find_node] at h
      by_cases hm : iter.hash = ph ∧ unique_strings_get buffer iter.addr = s
      · rw [if_pos hm] at h
        obtain ⟨-, hi⟩ := Prod.mk.injEq .. ▸ Option.some.inj h
        subst hi
        exact ⟨by simp, by simpa using hm.1, by simpa using hm.2⟩
      · rw [if_neg hm] at h
        by_cases hlt : iter.hash < ph
        · rw [if_pos hlt] at h
          exact absurd (Prod.mk.injEq .. ▸ Option.some.inj h).1 (by simp)
        · rw [if_neg hlt] at h
          cases hfr : _unique_strings_find_node buffer ph s rest with
          | none =>
              rw [hfr] at h
              exact absurd (Prod.mk.injEq .. ▸ Option.some.inj h).1 (by simp)
          | some bj =>
              obtain ⟨b, j⟩ := bj
              rw [hfr] at h
              obtain ⟨hb, hi⟩ := Prod.mk.injEq .. ▸ Option.some.inj h
              subst hb
              obtain ⟨h1, h2, h3⟩ := ih hfr
              subst hi
              refine ⟨by simp; omega, ?_, ?_⟩
              · simpa [List.getD_cons_succ] using h2
              · simpa [List.getD_cons_succ] using h3

theorem mem_insertAfter {chain : List Node} {i : Nat} {nn n : Node}
    (h : n ∈ insertAfter chain i nn) : n ∈ chain ∨ n = nn := by
  simp only [insertAfter, List.append_assoc, List.mem_append, List.mem_singleton] at h
  rcases h with h | h | h
  · exact Or.inl (List.mem_of_mem_take h)
  · exact Or.inr h
  · exact Or.inl (List.mem_of_mem_drop h)

theorem getD_ne_nil_mem {table : List (List Node)} {bid : Nat}
    (h : table.getD bid [] ≠ []) : table.getD bid [] ∈ table := by
  by_cases hlt : bid < table.length
  · rw [List.getD_eq_getElem _ _ hlt]
    exact List.getElem_mem hlt
  · rw [List.getD_eq_default _ _ (by omega)] at h
    exact absurd rfl h

/-! ## Case analysis of unique_strings_add -/

theorem add_shape {us : Interner} {s : List Nat} {a : Nat} {us' : Interner}
    (h : unique_strings_add us s = some (a, us')) :
    (us' = us ∧ ∃ table i,
        us.buckets = some table
        ∧ _unique_strings_find_node us.buffer (_string_hash_pair_prepare s) s
            (table.getD (_get_bucket_index (_string_hash_pair_prepare s)) [])
            = some (true, i)
        ∧ a = ((table.getD (_get_bucket_index (_string_hash_pair_prepare s)) []).getD i
                { hash := 0, addr := 0 }).addr)
    ∨ (∃ table chain',
        us.buckets = some table
        ∧ a = us.buffer.used
        ∧ us' = { buffer :=
                    (unique_string_node_create (_string_hash_pair_prepare s) s us.buffer).1,
                  buckets := some
                    (table.set (_get_bucket_index (_string_hash_pair_prepare s)) chain') }
        ∧ ∀ n ∈ chain',
            n ∈ table.getD (_get_bucket_index (_string_hash_pair_prepare s)) []
            ∨ n = { hash := _string_hash_pair_prepare s, addr := us.buffer.used }) := by
  cases hb : us.buckets with
  | none => simp [unique_strings_add, hb] at h
  | some table =>
      simp only [unique_strings_add, hb] at h
      cases hf : _unique_strings_find_node us.buffer (_string_hash_pair_prepare s) s
          (table.getD (_get_bucket_index (_string_hash_pair_prepare s)) []) with
      | none =>
          rw [hf] at h
          simp only at h
          obtain ⟨ha, hus⟩ := Prod.mk.injEq .. ▸ Option.some.inj h
          refine Or.inr ⟨table, [(unique_string_node_create
            (_string_hash_pair_prepare s) s us.buffer).2], rfl, ?_, hus.symm, ?_⟩
          · rw [← ha, node_create_snd]
          · intro n hn
            rw [List.mem_singleton] at hn
            exact Or.inr (by rw [hn, node_create_snd])
      | some bj =>
          obtain ⟨b, i⟩ := bj
          rw [hf] at h
          cases b with
          | true =>
              simp only at h
              obtain ⟨ha, hus⟩ := Prod.mk.injEq .. ▸ Option.some.inj h
              exact Or.inl ⟨hus.symm, table, i, rfl, hf, ha.symm⟩
          | false =>
              simp only at h
              obtain ⟨ha, hus⟩ := Prod.mk.injEq .. ▸ Option.some.inj h
              refine Or.inr ⟨table, insertAfter
                (table.getD (_get_bucket_index (_string_hash_pair_prepare s)) []) i
                (unique_string_node_create (_string_hash_pair_prepare s) s us.buffer).2,
                rfl, ?_, hus.symm, ?_⟩
              · rw [← ha, node_create_snd]
              · intro n hn
                rcases mem_insertAfter hn with h1 | h1
                · exact Or.inl h1
                · exact Or.inr (by rw [h1, node_create_snd])

/-! ## Facts about the freshly stored node -/

theorem get_new_node {b : Buffer} {s : List Nat} (ph : Nat)
    (hwf : b.data.length = b.used) (hs : 0 ∉ s) :
    unique_strings_get (unique_string_node_create ph s b).1 b.used = s := by
  simp only [unique_strings_get, node_create_data ph s b hwf]
  rw [List.append_assoc, ← hwf, List.drop_left]
  exact cstr_append_nul [] hs

theorem live_new_node {b : Buffer} {s : List Nat} (ph : Nat)
    (hwf : b.data.length = b.used) :
    HandleLive (unique_string_node_create ph s b).1 b.used := by
  refine ⟨s.length, ?_, ?_⟩
  · rw [node_create_used]
    omega
  · rw [node_create_data ph s b hwf]
    have hlen : (b.data ++ s).length = b.used + s.length := by
      simp [hwf]
    rw [List.getD_append_right (b.data ++ s) [0] 1 (b.used + s.length) (by omega), hlen]
    simp

/-! ## Effect of one add call on reads, liveness and the invariant -/

theorem add_get_back {us : Interner} {s : List Nat} {a : Nat} {us' : Interner}
    (hwf : WF us) (hs : 0 ∉ s) (h : unique_strings_add us s = some (a, us')) :
    unique_strings_get us'.buffer a = s := by
  rcases add_shape h with ⟨hus, table, i, hb, hf, ha⟩ | ⟨table, chain', hb, ha, hus, hmem⟩
  · obtain ⟨h1, h2, h3⟩ := find_node_found hf
    rw [hus, ha]
    exact h3
  · rw [hus, ha]
    exact get_new_node (_string_hash_pair_prepare s) hwf hs

theorem add_live {us : Interner} {s : List Nat} {a : Nat} {us' : Interner}
    (hwf : WF us) (hnl : NodesLive us) (h : unique_strings_add us s = some (a, us')) :
    HandleLive us'.buffer a := by
  rcases add_shape h with ⟨hus, table, i, hb, hf, ha⟩ | ⟨table, chain', hb, ha, hus, hmem⟩
  · obtain ⟨h1, h2, h3⟩ := find_node_found hf
    have hchain : table.getD (_get_bucket_index (_string_hash_pair_prepare s)) [] ∈ table := by
      refine getD_ne_nil_mem ?_
      intro hnil
      rw [hnil] at h1
      simp at h1
    have hnode :
        (table.getD (_get_bucket_index (_string_hash_pair_prepare s)) []).getD i
            { hash := 0, addr := 0 }
          ∈ table.getD (_get_bucket_index (_string_hash_pair_prepare s)) [] := by
      rw [List.getD_eq_getElem _ _ h1]
      exact List.getElem_mem h1
    rw [hus, ha]
    exact hnl table hb _ hchain _ hnode
  · rw [hus, ha]
    exact live_new_node (_string_hash_pair_prepare s) hwf

theorem add_WF {us us' : Interner} {s : List Nat} {a : Nat}
    (hwf : WF us) (h : unique_strings_add us s = some (a, us')) : WF us' := by
  rcases add_shape h with ⟨hus, -⟩ | ⟨table, chain', hb, ha, hus, hmem⟩
  · rw [hus]
    exact hwf
  · rw [hus]
    show (unique_string_node_create (_string_hash_pair_prepare s) s us.buffer).1.data.length
        = (unique_string_node_create (_string_hash_pair_prepare s) s us.buffer).1.used
    have hwf' : us.buffer.data.length = us.buffer.used := hwf
    rw [node_create_data _ _ _ hwf, node_create_used]
    simp only [List.length_append, List.length_cons, List.length_nil]
    omega

theorem add_get_preserve {us us' : Interner} {s : List Nat} {a addr : Nat}
    (hwf : WF us) (hl : HandleLive us.buffer addr)
    (h : unique_strings_add us s = some (a, us')) :
    unique_strings_get us'.buffer addr = unique_strings_get us.buffer addr
    ∧ HandleLive us'.buffer addr := by
  rcases add_shape h with ⟨hus, -⟩ | ⟨table, chain', hb, ha, hus, hmem⟩
  · rw [hus]
    exact ⟨rfl, hl⟩
  · rw [hus]
    constructor
    · exact get_data_append (s ++ [0])
        (by rw [node_create_data _ _ _ hwf, List.append_assoc]) hwf hl
    · exact live_data_append (s ++ [0])
        (by rw [node_create_data _ _ _ hwf, List.append_assoc])
        (by rw [node_create_used]; omega) hwf hl

theorem add_nodes_live {us us' : Interner} {s : List Nat} {a : Nat}
    (hwf : WF us) (hnl : NodesLive us) (h : unique_strings_add us s = some (a, us')) :
    NodesLive us' := by
  rcases add_shape h with ⟨hus, -⟩ | ⟨table, chain', hb, ha, hus, hmem⟩
  · rw [hus]
    exact hnl
  · rw [hus]
    intro table' htable' chain hchain n hn
    obtain rfl := Option.some.inj htable'
    have hlive_old : ∀ m : Node, m ∈ table.getD
        (_get_bucket_index (_string_hash_pair_prepare s)) [] →
        HandleLive us.buffer m.addr := by
      intro m hm
      exact hnl table hb _ (getD_ne_nil_mem (List.ne_nil_of_mem hm)) m hm
    have hstep : ∀ m : Node, HandleLive us.buffer m.addr →
        HandleLive (unique_string_node_create
          (_string_hash_pair_prepare s) s us.buffer).1 m.addr := by
      intro m hm
      exact live_data_append (s ++ [0])
        (by rw [node_create_data _ _ _ hwf, List.append_assoc])
        (by rw [node_create_used]; omega) hwf hm
    rcases List.mem_or_eq_of_mem_set hchain with hold | rfl
    · exact hstep n (hnl table hb chain hold n hn)
    · rcases hmem n hn with hold | rfl
      · exact hstep n (hlive_old n hold)
      · exact live_new_node (_string_hash_pair_prepare s) hwf

theorem add_hash_inv {us us' : Interner} {s : List Nat} {a : Nat}
    (hwf : WF us) (hnl : NodesLive us) (hhi : HashInv us) (hs : 0 ∉ s)
    (h : unique_strings_add us s = some (a, us')) : HashInv us' := by
  rcases add_shape h with ⟨hus, -⟩ | ⟨table, chain', hb, ha, hus, hmem⟩
  · rw [hus]
    exact hhi
  · rw [hus]
    intro table' htable' chain hchain n hn
    obtain rfl := Option.some.inj htable'
    have hget_pres : ∀ m : Node, HandleLive us.buffer m.addr →
        unique_strings_get (unique_string_node_create
            (_string_hash_pair_prepare s) s us.buffer).1 m.addr
          = unique_strings_get us.buffer m.addr := by
      intro m hm
      exact get_data_append (s ++ [0])
        (by rw [node_create_data _ _ _ hwf, List.append_assoc]) hwf hm
    have hold_case : ∀ m : Node, m ∈ table.getD
        (_get_bucket_index (_string_hash_pair_prepare s)) [] →
        m.hash = _string_hash_pair_prepare (unique_strings_get
          (unique_string_node_create (_string_hash_pair_prepare s) s us.buffer).1 m.addr) := by
      intro m hm
      have hmm := getD_ne_nil_mem (List.ne_nil_of_mem hm)
      rw [hget_pres m (hnl table hb _ hmm m hm)]
      exact hhi table hb _ hmm m hm
    rcases List.mem_or_eq_of_mem_set hchain with hold | rfl
    · rw [hget_pres n (hnl table hb chain hold n hn)]
      exact hhi table hb chain hold n hn
    · rcases hmem n hn with holdm | rfl
      · exact hold_case n holdm
      · show _string_hash_pair_prepare s = _
        rw [get_new_node _ hwf hs]

/-! ## Effect of freeze on the arena -/

theorem freeze_buffer_data {us : Interner} (hwf : WF us) :
    (unique_strings_freeze us).buffer.data = us.buffer.data := by
  show (us.buffer.data.take us.buffer.used) = us.buffer.data
  rw [← hwf, List.take_length]

theorem freeze_buffer_used (us : Interner) :
    (unique_strings_freeze us).buffer.used = us.buffer.used := rfl

theorem freeze_buffer_capacity (us : Interner) :
    (unique_strings_freeze us).buffer.capacity = us.buffer.used := rfl

theorem freeze_buckets (us : Interner) :
    (unique_strings_freeze us).buckets = none := rfl

/-! ## Stability and invariants along a run of operations -/

theorem runOp_stable {us us' : Interner} {addr : Nat} {op : Op}
    (hwf : WF us) (hl : HandleLive us.buffer addr) (h : runOp us op = some us') :
    unique_strings_get us'.buffer addr = unique_strings_get us.buffer addr
    ∧ WF us' ∧ HandleLive us'.buffer addr := by
  cases op with
  | add s =>
      simp only [runOp, Option.map_eq_some'] at h
      obtain ⟨⟨a, us₁⟩, hadd, rfl⟩ := h
      exact ⟨(add_get_preserve hwf hl hadd).1, add_WF hwf hadd,
        (add_get_preserve hwf hl hadd).2⟩
  | freeze =>
      obtain rfl := Option.some.inj h
      refine ⟨?_, ?_, ?_⟩
      · show unique_strings_get (unique_strings_freeze us).buffer addr = _
        simp only [unique_strings_get, freeze_buffer_data hwf]
      · show (unique_strings_freeze us).buffer.data.length
            = (unique_strings_freeze us).buffer.used
        rw [freeze_buffer_data hwf, freeze_buffer_used]
        exact hwf
      · obtain ⟨j, hj, h0⟩ := hl
        exact ⟨j, by rw [freeze_buffer_used]; exact hj,
          by rw [freeze_buffer_data hwf]; exact h0⟩

theorem runOps_stable {addr : Nat} :
    ∀ {ops : List Op} {us us' : Interner},
      WF us → HandleLive us.buffer addr → runOps us ops = some us' →
      unique_strings_get us'.buffer addr = unique_strings_get us.buffer addr
      ∧ WF us' ∧ HandleLive us'.buffer addr := by
  intro ops
  induction ops with
  | nil =>
      intro us us' hwf hl h
      obtain rfl := Option.some.inj h
      exact ⟨rfl, hwf, hl⟩
  | cons op rest ih =>
      intro us us' hwf hl h
      simp only [runOps, Option.bind_eq_some] at h
      obtain ⟨us₁, hop, hrest⟩ := h
      obtain ⟨hg, hwf₁, hl₁⟩ := runOp_stable hwf hl hop
      obtain ⟨hg', hwf', hl'⟩ := ih hwf₁ hl₁ hrest
      exact ⟨by rw [hg', hg], hwf', hl'⟩

theorem freeze_inv {us : Interner} (hInv : Inv us) : Inv (unique_strings_freeze us) := by
  obtain ⟨hwf, -, -⟩ := hInv
  refine ⟨?_, ?_, ?_⟩
  · show (unique_strings_freeze us).buffer.data.length = (unique_strings_freeze us).buffer.used
    rw [freeze_buffer_data hwf, freeze_buffer_used]
    exact hwf
  · intro table htable
    rw [freeze_buckets] at htable
    cases htable
  · intro table htable
    rw [freeze_buckets] at htable
    cases htable

theorem add_inv {us us' : Interner} {s : List Nat} {a : Nat}
    (hInv : Inv us) (hs : 0 ∉ s) (h : unique_strings_add us s = some (a, us')) :
    Inv us' := by
  obtain ⟨hwf, hnl, hhi⟩ := hInv
  exact ⟨add_WF hwf h, add_nodes_live hwf hnl h, add_hash_inv hwf hnl hhi hs h⟩

theorem runOp_inv {us us' : Interner} {op : Op} (hInv : Inv us)
    (hvalid : ∀ s, op = Op.add s → 0 ∉ s) (h : runOp us op = some us') : Inv us' := by
  cases op with
  | add s =>
      simp only [runOp, Option.map_eq_some'] at h
      obtain ⟨⟨a, us₁⟩, hadd, rfl⟩ := h
      exact add_inv hInv (hvalid s rfl) hadd
  | freeze =>
      obtain rfl := Option.some.inj h
      exact freeze_inv hInv

theorem runOps_inv :
    ∀ {ops : List Op} {us us' : Interner},
      Inv us → ValidOps ops → runOps us ops = some us' → Inv us' := by
  intro ops
  induction ops with
  | nil =>
      intro us us' hInv hv h
      obtain rfl := Option.some.inj h
      exact hInv
  | cons op rest ih =>
      intro us us' hInv hv h
      simp only [runOps, Option.bind_eq_some] at h
      obtain ⟨us₁, hop, hrest⟩ := h
      refine ih (runOp_inv hInv ?_ hop) ?_ hrest
      · intro s hop'
        exact hv s (by rw [hop']; exact List.mem_cons_self _ _)
      · intro s hs
        exact hv s (List.mem_cons_of_mem _ hs)

theorem create_inv : Inv unique_strings_create := by
  refine ⟨rfl, ?_, ?_⟩
  · intro table htable chain hchain n hn
    obtain rfl := Option.some.inj htable
    rw [List.eq_of_mem_replicate hchain] at hn
    cases hn
  · intro table htable chain hchain n hn
    obtain rfl := Option.some.inj htable
    rw [List.eq_of_mem_replicate hchain] at hn
    cases hn

/-! ## Totality of add in the Building phase -/

theorem add_some_of_buckets {us : Interner} {s : List Nat} {table : List (List Node)}
    (hb : us.buckets = some table) : ∃ r, unique_strings_add us s = some r := by
  simp only [unique_strings_add, hb]
  cases hf : _unique_strings_find_node us.buffer (_string_hash_pair_prepare s) s
      (table.getD (_get_bucket_index (_string_hash_pair_prepare s)) []) with
  | none => exact ⟨_, rfl⟩
  | some bj =>
      obtain ⟨b, i⟩ := bj
      cases b
      · exact ⟨_, rfl⟩
      · exact ⟨_, rfl⟩

/-! ## Counting release events -/

theorem free_nodes_countP_isNode (chain : List Node) :
    (_unique_string_free_nodes chain).countP FreeEvt.isNode = chain.length := by
  induction chain with
  | nil => rfl
  | cons n rest ih =>
      simp [_unique_string_free_nodes, List.countP_append, ih, List.countP_cons,
        FreeEvt.isNode]

theorem free_nodes_countP_eq_zero (p : FreeEvt → Bool)
    (hp : ∀ a, p (FreeEvt.node a) = false) (chain : List Node) :
    (_unique_string_free_nodes chain).countP p = 0 := by
  induction chain with
  | nil => rfl
  | cons n rest ih =>
      simp [_unique_string_free_nodes, List.countP_append, ih, List.countP_cons, hp]

theorem flatten_free_nodes_countP_isNode (table : List (List Node)) :
    ((table.map _unique_string_free_nodes).flatten).countP FreeEvt.isNode
      = totalNodes table := by
  induction table with
  | nil => rfl
  | cons c rest ih =>
      simp only [List.map_cons, List.flatten_cons, List.countP_append, ih,
        free_nodes_countP_isNode, totalNodes, List.sum_cons]

theorem flatten_free_nodes_countP_eq_zero (p : FreeEvt → Bool)
    (hp : ∀ a, p (FreeEvt.node a) = false) (table : List (List Node)) :
    ((table.map _unique_string_free_nodes).flatten).countP p = 0 := by
  induction table with
  | nil => rfl
  | cons c rest ih =>
      simp only [List.map_cons, List.flatten_cons, List.countP_append, ih,
        free_nodes_countP_eq_zero p hp]

theorem free_buckets_log_counts {us : Interner} {table : List (List Node)}
    (hb : us.buckets = some table) :
    (_unique_string_free_buckets_log us).countP FreeEvt.isNode = totalNodes table
    ∧ (_unique_string_free_buckets_log us).countP FreeEvt.isTable = 1
    ∧ (_unique_string_free_buckets_log us).countP FreeEvt.isBuf = 0
    ∧ (_unique_string_free_buckets_log us).countP FreeEvt.isObj = 0 := by
  simp only [_unique_string_free_buckets_log, hb, List.countP_append]
  refine ⟨?_, ?_, ?_, ?_⟩
  · rw [flatten_free_nodes_countP_isNode]
    simp [List.countP_cons, FreeEvt.isNode]
  · rw [flatten_free_nodes_countP_eq_zero FreeEvt.isTable (fun a => rfl)]
    simp [List.countP_cons, FreeEvt.isTable]
  · rw [flatten_free_nodes_countP_eq_zero FreeEvt.isBuf (fun a => rfl)]
    simp [List.countP_cons, FreeEvt.isBuf]
  · rw [flatten_free_nodes_countP_eq_zero FreeEvt.isObj (fun a => rfl)]
    simp [List.countP_cons, FreeEvt.isObj]

/-! ## Claim C3: round trip -/

/-- C3 counterexample.  The claim quantifies over every interner
state, but in the Frozen state (reached here by freezing a fresh
interner) add dereferences the released bucket table and yields no
handle at all, so get(add(s)) does not return s for s = [65]. -/
theorem round_trip_claim_false :
    ¬ ∃ (a : Nat) (us' : Interner),
        unique_strings_add (unique_strings_freeze unique_strings_create) [65]
          = some (a, us')
        ∧ unique_strings_get us'.buffer a = [65] := by
  rintro ⟨a, us', h, -⟩
  rw [show unique_strings_add (unique_strings_freeze unique_strings_create) [65] = none
      from rfl] at h
  cases h

/-- C3 amended.  For every NUL-free byte string s (the empty string
included) and every wellformed interner state still in the Building
phase (the bucket table is present), add(s) succeeds and get on the
returned handle yields bytes equal to s. -/
theorem round_trip (us : Interner) (s : List Nat) (hwf : WF us)
    (hb : us.buckets ≠ none) (hs : 0 ∉ s) :
    ∃ (a : Nat) (us' : Interner),
      unique_strings_add us s = some (a, us')
      ∧ unique_strings_get us'.buffer a = s := by
  cases hbk : us.buckets with
  | none => exact absurd hbk hb
  | some table =>
      obtain ⟨⟨a, us'⟩, hadd⟩ := add_some_of_buckets (s := s) hbk
      exact ⟨a, us', hadd, add_get_back hwf hs hadd⟩

/-- Witness for the amended C3 at a concrete input: a fresh interner
and the string [65], and also the empty string on the result. -/
theorem round_trip_witness :
    ∃ (a : Nat) (us' : Interner),
      unique_strings_add unique_strings_create [65] = some (a, us')
      ∧ unique_strings_get us'.buffer a = [65] :=
  round_trip unique_strings_create [65] rfl (by decide) (by decide)

/-! ## Claim C6: add after freeze -/

/-- C6 counterexample.  The sequence add [97]; freeze; add [97] does
not yield a second handle: the second add dereferences the null bucket
table (the model reports none), so there are no two handles with
different offsets both dereferencing to the string. -/
theorem freeze_add_claim_false :
    ((unique_strings_add unique_strings_create [97]).bind
        (fun p => unique_strings_add (unique_strings_freeze p.2) [97])) = none := by
  rfl

/-- C6 amended.  freeze releases the bucket table, and any later add
dereferences the null table instead of appending a dedup-free copy:
for every interner state and every string, add after freeze yields no
handle (in the C code this is a null-pointer dereference). -/
theorem add_after_freeze (us : Interner) (s : List Nat) :
    unique_strings_add (unique_strings_freeze us) s = none := by
  simp only [unique_strings_add, freeze_buckets]

/-! ## Claim C8: ownership -/

/-- C8.  owns is address-range containment over the current arena: it
is true exactly for the addresses base + off with off strictly below
used (the sub-ranges of the arena storage of this interner), and it is
false for every address inside the live storage of a different
interner, the two live allocations being disjoint as the allocator
guarantees. -/
theorem owns_spec :
    (∀ (us : Interner) (base off : Nat), off < us.buffer.used →
        unique_strings_owns us base (base + off) = true)
    ∧ (∀ (us : Interner) (base p : Nat), unique_strings_owns us base p = true →
        ∃ off, off < us.buffer.used ∧ p = base + off)
    ∧ (∀ (us₁ us₂ : Interner) (base₁ base₂ off : Nat),
        (base₁ + us₁.buffer.used ≤ base₂ ∨ base₂ + us₂.buffer.used ≤ base₁) →
        off < us₂.buffer.used →
        unique_strings_owns us₁ base₁ (base₂ + off) = false) := by
  refine ⟨?_, ?_, ?_⟩
  · intro us base off h
    simp only [unique_strings_owns, Bool.and_eq_true, decide_eq_true_eq]
    omega
  · intro us base p h
    simp only [unique_strings_owns, Bool.and_eq_true, decide_eq_true_eq] at h
    exact ⟨p - base, by omega, by omega⟩
  · intro us₁ us₂ base₁ base₂ off hdisj hoff
    simp only [unique_strings_owns]
    rcases hdisj with hd | hd
    · have : ¬ (base₂ + off < base₁ + us₁.buffer.used) := by omega
      simp [this]
    · have : ¬ (base₁ ≤ base₂ + off) := by omega
      simp [this]

/-- Witness for C8 at concrete inputs: an interner with 4 used bytes
based at address 100 owns address 102, and does not own address 201
inside a disjoint interner with 2 used bytes based at 200. -/
theorem owns_spec_witness :
    unique_strings_owns
        { buffer := { used := 4, capacity := 4, data := [1, 2, 3, 0] }, buckets := none }
        100 (100 + 2) = true
    ∧ unique_strings_owns
        { buffer := { used := 4, capacity := 4, data := [1, 2, 3, 0] }, buckets := none }
        100 (200 + 1) = false := by
  constructor
  · exact owns_spec.1 _ 100 2 (by decide)
  · exact owns_spec.2.2 _
      { buffer := { used := 2, capacity := 2, data := [5, 0] }, buckets := none }
      100 200 1 (Or.inl (by decide)) (by decide)

/-! ## Claim C5: freeze -/

/-- C5.  freeze compacts the arena so that capacity equals used while
leaving used, the stored bytes and every read through an existing
handle unchanged, discards the bucket table, and (from a Building
state) its release log frees exactly one node per index entry and the
bucket table exactly once. -/
theorem freeze_spec (us : Interner) (hwf : WF us) :
    (unique_strings_freeze us).buffer.capacity = (unique_strings_freeze us).buffer.used
    ∧ (unique_strings_freeze us).buffer.used = us.buffer.used
    ∧ (unique_strings_freeze us).buffer.data = us.buffer.data
    ∧ (unique_strings_freeze us).buckets = none
    ∧ (∀ addr, unique_strings_get (unique_strings_freeze us).buffer addr
        = unique_strings_get us.buffer addr)
    ∧ (∀ table, us.buckets = some table →
        (_unique_string_free_buckets_log us).countP FreeEvt.isNode = totalNodes table
        ∧ (_unique_string_free_buckets_log us).countP FreeEvt.isTable = 1) := by
  refine ⟨rfl, rfl, freeze_buffer_data hwf, rfl, ?_, ?_⟩
  · intro addr
    simp only [unique_strings_get, freeze_buffer_data hwf]
  · intro table hb
    exact ⟨(free_buckets_log_counts hb).1, (free_buckets_log_counts hb).2.1⟩

/-- Witness for C5 at a concrete Building-phase state holding the
single string [97]. -/
theorem freeze_spec_witness :
    (unique_strings_freeze
        { buffer := { used := 2, capacity := 1024, data := [97, 0] },
          buckets := some ((List.replicate 32 []).set 18
            [{ hash := 3270753234, addr := 0 }]) }).buffer.capacity = 2
    ∧ (_unique_string_free_buckets_log
        { buffer := { used := 2, capacity := 1024, data := [97, 0] },
          buckets := some ((List.replicate 32 []).set 18
            [{ hash := 3270753234, addr := 0 }]) }).countP FreeEvt.isNode
      = totalNodes ((List.replicate 32 []).set 18 [{ hash := 3270753234, addr := 0 }]) := by
  constructor
  · exact (freeze_spec
      { buffer := { used := 2, capacity := 1024, data := [97, 0] },
        buckets := some ((List.replicate 32 []).set 18
          [{ hash := 3270753234, addr := 0 }]) } rfl).1
  · exact ((freeze_spec
      { buffer := { used := 2, capacity := 1024, data := [97, 0] },
        buckets := some ((List.replicate 32 []).set 18
          [{ hash := 3270753234, addr := 0 }]) } rfl).2.2.2.2.2 _ rfl).1

/-! ## Claim C9: the probe -/

/-- C9.  The code-level probe agrees with the probe described by the
spec: walking the chain of the selected bucket from its head, it
returns Found of the first visited entry whose digest equals the query
digest and whose stored bytes equal the query bytes; it stops walking
at an entry whose digest is strictly smaller than the query digest;
and otherwise it returns NotFound carrying the last visited entry, or
none if the bucket was empty. -/
theorem find_node_probe_spec (buffer : Buffer) (ph : Nat) (s : List Nat)
    (chain : List Node) :
    findResultToProbe chain (_unique_strings_find_node buffer ph s chain)
      = probeSpec (fun n => unique_strings_get buffer n.addr) ph s chain := by
  induction chain with
  | nil => rfl
  | cons iter rest ih =>
      simp only [_unique_strings_find_node, probeSpec]
      by_cases hm : iter.hash = ph ∧ unique_strings_get buffer iter.addr = s
      · rw [if_pos hm, if_pos hm]
        rfl
      · rw [if_neg hm, if_neg hm]
        by_cases hlt : iter.hash < ph
        · rw [if_pos hlt, if_pos hlt]
          rfl
        · rw [if_neg hlt, if_neg hlt]
          cases hf : _unique_strings_find_node buffer ph s rest with
          | none =>
              rw [hf] at ih
              rw [← ih]
              rfl
          | some bj =>
              obtain ⟨b, j⟩ := bj
              rw [hf] at ih
              rw [← ih]
              cases b
              · simp [findResultToProbe, List.getD_cons_succ]
              · simp [findResultToProbe, List.getD_cons_succ]

/-! ## Claim C10: destroy -/

/-- C10.  destroy of a null interner reference is a no-op; destroy of
a frozen interner releases only the arena storage and the object (the
bucket-table pointer is checked and found null, so no index release
happens); and destroy of a Building-phase interner releases each index
entry exactly once, the bucket table exactly once, then the arena
storage and the object exactly once each. -/
theorem destroy_spec :
    unique_strings_destroy none = []
    ∧ (∀ us : Interner, us.buckets = none →
        unique_strings_destroy (some us) = [FreeEvt.buf, FreeEvt.obj])
    ∧ (∀ (us : Interner) (table : List (List Node)), us.buckets = some table →
        (unique_strings_destroy (some us)).countP FreeEvt.isNode = totalNodes table
        ∧ (unique_strings_destroy (some us)).countP FreeEvt.isTable = 1
        ∧ (unique_strings_destroy (some us)).countP FreeEvt.isBuf = 1
        ∧ (unique_strings_destroy (some us)).countP FreeEvt.isObj = 1) := by
  refine ⟨rfl, ?_, ?_⟩
  · intro us hb
    simp [unique_strings_destroy, _unique_string_free_buckets_log, hb]
  · intro us table hb
    obtain ⟨h1, h2, h3, h4⟩ := free_buckets_log_counts hb
    simp only [unique_strings_destroy, List.countP_append, h1, h2, h3, h4]
    refine ⟨?_, ?_, ?_, ?_⟩ <;>
      simp [List.countP_cons, FreeEvt.isNode, FreeEvt.isTable, FreeEvt.isBuf, FreeEvt.isObj]

/-- Witness for C10 at concrete inputs: a frozen interner (bucket
table already null) and a Building-phase interner holding one
entry. -/
theorem destroy_spec_witness :
    unique_strings_destroy
        (some { buffer := { used := 2, capacity := 2, data := [97, 0] }, buckets := none })
      = [FreeEvt.buf, FreeEvt.obj]
    ∧ (unique_strings_destroy
        (some { buffer := { used := 2, capacity := 1024, data := [97, 0] },
                buckets := some ((List.replicate 32 []).set 18
                  [{ hash := 3270753234, addr := 0 }]) })).countP FreeEvt.isNode
      = totalNodes ((List.replicate 32 []).set 18 [{ hash := 3270753234, addr := 0 }]) := by
  constructor
  · exact destroy_spec.2.1 _ rfl
  · exact (destroy_spec.2.2 _
      ((List.replicate 32 []).set 18 [{ hash := 3270753234, addr := 0 }]) rfl).1

/-! ## Claim C4: handle stability -/

/-- C4.  A handle issued by add dereferences to the bytes stored when
it was issued, and keeps dereferencing to those same bytes after any
completed subsequent sequence of operations short of destroy: further
adds (including ones that force reallocations of the arena) and
freeze. -/
theorem handle_stability {us us₁ us₂ : Interner} {s : List Nat} {a : Nat} {ops : List Op}
    (hInv : Inv us) (hs : 0 ∉ s)
    (hadd : unique_strings_add us s = some (a, us₁))
    (hrun : runOps us₁ ops = some us₂) :
    unique_strings_get us₁.buffer a = s
    ∧ unique_strings_get us₂.buffer a = s := by
  obtain ⟨hwf, hnl, -⟩ := hInv
  have h1 : unique_strings_get us₁.buffer a = s := add_get_back hwf hs hadd
  obtain ⟨hg, -, -⟩ := runOps_stable (add_WF hwf hadd) (add_live hwf hnl hadd) hrun
  exact ⟨h1, by rw [hg, h1]⟩

/-- Witness for C4 at a concrete input: the handle for [97] issued by
a fresh interner still reads [97] after a further add of [98] (which
grows the arena) and a freeze. -/
theorem handle_stability_witness :
    unique_strings_get
        ({ buffer := { used := 2, capacity := 1024, data := [97, 0] },
           buckets := some ((List.replicate 32 []).set 18
             [{ hash := 3270753234, addr := 0 }]) } : Interner).buffer 0 = [97]
    ∧ unique_strings_get
        ({ buffer := { used := 4, capacity := 4, data := [97, 0, 98, 0] },
           buckets := none } : Interner).buffer 0 = [97] :=
  @handle_stability unique_strings_create
    { buffer := { used := 2, capacity := 1024, data := [97, 0] },
      buckets := some ((List.replicate 32 []).set 18 [{ hash := 3270753234, addr := 0 }]) }
    { buffer := { used := 4, capacity := 4, data := [97, 0, 98, 0] }, buckets := none }
    [97] 0 [Op.add [98], Op.freeze] create_inv (by decide) rfl rfl

/-! ## Claim C7: digest purity -/

/-- C7.  The digest is a pure deterministic function of byte content
and length only: byte-wise equal inputs always receive equal digests,
and across any two interner states reached by any two runs of the
public interface, index entries whose stored contents are byte-wise
equal carry equal digests, independent of the storage address (the
arena offset) and of the interner state in which they were stored. -/
theorem digest_pure :
    (∀ s₁ s₂ : List Nat, s₁ = s₂ →
        _string_hash_pair_prepare s₁ = _string_hash_pair_prepare s₂)
    ∧ (∀ (ops₁ ops₂ : List Op) (us₁ us₂ : Interner)
        (t₁ t₂ : List (List Node)) (c₁ c₂ : List Node) (n₁ n₂ : Node),
        ValidOps ops₁ → ValidOps ops₂ →
        runOps unique_strings_create ops₁ = some us₁ →
        runOps unique_strings_create ops₂ = some us₂ →
        us₁.buckets = some t₁ → c₁ ∈ t₁ → n₁ ∈ c₁ →
        us₂.buckets = some t₂ → c₂ ∈ t₂ → n₂ ∈ c₂ →
        unique_strings_get us₁.buffer n₁.addr = unique_strings_get us₂.buffer n₂.addr →
        n₁.hash = n₂.hash) := by
  refine ⟨fun s₁ s₂ h => by rw [h], ?_⟩
  intro ops₁ ops₂ us₁ us₂ t₁ t₂ c₁ c₂ n₁ n₂ hv₁ hv₂ hr₁ hr₂ hb₁ hc₁ hn₁ hb₂ hc₂ hn₂ heq
  obtain ⟨-, -, hhi₁⟩ := runOps_inv create_inv hv₁ hr₁
  obtain ⟨-, -, hhi₂⟩ := runOps_inv create_inv hv₂ hr₂
  rw [hhi₁ t₁ hb₁ c₁ hc₁ n₁ hn₁, hhi₂ t₂ hb₂ c₂ hc₂ n₂ hn₂, heq]

/-- Witness for C7 at concrete inputs: the string [97] interned at
offset 0 by one run and at offset 2 by a different run (after [116])
carries the same digest 3270753234 in both index entries. -/
theorem digest_pure_witness :
    ({ hash := 3270753234, addr := 0 } : Node).hash
      = ({ hash := 3270753234, addr := 2 } : Node).hash := by
  refine digest_pure.2 [Op.add [97]] [Op.add [116], Op.add [97]]
    { buffer := { used := 2, capacity := 1024, data := [97, 0] },
      buckets := some ((List.replicate 32 []).set 18 [{ hash := 3270753234, addr := 0 }]) }
    { buffer := { used := 4, capacity := 1024, data := [116, 0, 97, 0] },
      buckets := some ((List.replicate 32 []).set 18
        [{ hash := 2068555602, addr := 0 }, { hash := 3270753234, addr := 2 }]) }
    ((List.replicate 32 []).set 18 [{ hash := 3270753234, addr := 0 }])
    ((List.replicate 32 []).set 18
      [{ hash := 2068555602, addr := 0 }, { hash := 3270753234, addr := 2 }])
    [{ hash := 3270753234, addr := 0 }]
    [{ hash := 2068555602, addr := 0 }, { hash := 3270753234, addr := 2 }]
    { hash := 3270753234, addr := 0 } { hash := 3270753234, addr := 2 }
    ?_ ?_ rfl rfl rfl (by decide) (by decide) rfl (by decide) (by decide) rfl
  · intro s hs
    simp only [List.mem_singleton, Op.add.injEq] at hs
    subst hs
    decide
  · intro s hs
    simp only [List.mem_cons, List.mem_singleton, Op.add.injEq, List.not_mem_nil,
      or_false] at hs
    rcases hs with rfl | rfl <;> decide

/-! ## Claim C1: idempotent content addressing -/

/-- C1, evaluated at the failing input (a code bug).  Adding the
string [116], then [97], then [97] again: both single-byte strings
select bucket 18 and the digest of [116] (2068555602) is strictly
smaller than the digest of [97] (3270753234).  After the second call
the chain is the [116] entry followed by the [97] entry, so the third
call short-circuits at the chain head (its digest is strictly smaller
than the query digest), misses the existing entry, and stores a second
copy: the two adds of the byte-wise identical string [97] return the
different offsets 2 and 4, both of which dereference to [97].  The
insertion splices a new node after a strictly smaller digest, which
breaks the descending order that the short-circuit of the search (the
comment in the source calls it sorted search/insert) relies on, so
idempotence of add and content addressing fail during Building. -/
theorem dedup_miss_at_failing_input :
    ∃ us₁ us₂ us₃ : Interner,
      unique_strings_add unique_strings_create [116] = some (0, us₁)
      ∧ unique_strings_add us₁ [97] = some (2, us₂)
      ∧ unique_strings_add us₂ [97] = some (4, us₃)
      ∧ (2 : Nat) ≠ 4
      ∧ unique_strings_get us₃.buffer 2 = [97]
      ∧ unique_strings_get us₃.buffer 4 = [97] := by
  refine ⟨_, _, _, rfl, rfl, rfl, by decide, rfl, rfl⟩

end UapC
